import Mathlib

/-!
Shallow embedding of `src/index.js` (strapi-fragments-cli).

JS strings are modelled as Lean `String` (a wrapper around `List Char`);
where JS string methods are needed on segment lists (`split`, `charAt`,
`slice`) we work on `List Char` directly.  The HTTP boundary is modelled
as an environment `Env : url → component → Option AttributeSchema`
(`none` = transport error, non-2xx status, or malformed body: all of
these throw inside the `try` of `fetchComponentFields` and are caught
there).  The asynchronous recursion of the source is modelled as a
fuel-indexed total function; `JsErr.outOfFuel` is a model artifact that
never occurs on acyclic schema graphs with enough fuel, and
`JsErr.typeError` models the `TypeError` thrown by
`componentFields.join` when the nested fetch returned `null`.  Comments
cite line numbers of `src/index.js`.
-/

/-! ### JS string helpers (Name Deriver, `processString`, lines 45-65) -/

/-- JS `segment.charAt(0).toUpperCase() + segment.slice(1)` on a code-point list. -/
def capitalizeSeg (s : List Char) : List Char :=
  match s with
  | [] => []
  | c :: cs => c.toUpper :: cs

/-- JS `String.prototype.split` against a character class: splits at every
separator occurrence, keeping empty segments (`"".split` is `[""]`). -/
def splitP (p : Char → Bool) : List Char → List (List Char)
  | [] => [[]]
  | c :: cs =>
    if p c then [] :: splitP p cs
    else
      match splitP p cs with
      | [] => [[c]]
      | s :: ss => (c :: s) :: ss

/-- Result record of `processString` (`{ name, collection }`). -/
structure DerivedNames where
  name : List Char
  collection : List Char
deriving DecidableEq, Repr

/-- Model of `processString` (lines 45-65).  Indexing the dot-split at 1
yields `undefined` when the identifier has no dot, and splitting
`undefined` on hyphens throws; that failure mode is modelled as `none`. -/
def processString (str : List Char) : Option DerivedNames :=
  let capitalizedSegments := (splitP (fun c => c == '-' || c == '.') str).map capitalizeSeg
  match (splitP (fun c => c == '.') str).get? 1 with
  | none => none
  | some second =>
    let nameSegments := (splitP (fun c => c == '-') second).map capitalizeSeg
    some ⟨nameSegments.flatten, "Component".data ++ capitalizedSegments.flatten⟩

/-- JS `name.charAt(0).toLowerCase() + name.slice(1)` (lines 160, 179, 187, 189). -/
def lowerFirst (s : String) : String :=
  match s.data with
  | [] => ""
  | c :: cs => String.mk (c.toLower :: cs)

/-- JS `Array.prototype.join(sep)` for an array of strings. -/
def joinWith (sep : String) : List String → String
  | [] => ""
  | x :: xs => xs.foldl (fun acc y => acc ++ sep ++ y) x

/-- JS `haystack.includes(needle)` on code-point lists. -/
def containsSubL (h n : List Char) : Bool :=
  (List.range (h.length + 1)).any fun i => n.isPrefixOf (h.drop i)

/-- Number of positions of `h` at which `n` occurs as a substring. -/
def countSubL (h n : List Char) : Nat :=
  ((List.range (h.length + 1)).filter fun i => n.isPrefixOf (h.drop i)).length

/-- Collapse every run of blanks/newlines to a single space (used only to
relate the indented GraphQL blocks of the code to the one-line rendering
used by the spec). -/
def squashAux (prevWs : Bool) : List Char → List Char
  | [] => []
  | c :: cs =>
    if c == ' ' || c == '\n' then
      if prevWs then squashAux true cs else ' ' :: squashAux true cs
    else c :: squashAux false cs

/-- Whitespace normalisation of a string (runs of spaces/newlines become one space). -/
def squashWs (s : String) : String := String.mk (squashAux false s.data)

/-! ### Schema Resolver (`fetchComponentFields` / `parseFields`, lines 75-107) -/

instance exceptDecEq {ε α : Type} [DecidableEq ε] [DecidableEq α] : DecidableEq (Except ε α)
  | .error e, .error f =>
    if h : e = f then isTrue (by rw [h]) else isFalse (fun c => h (Except.error.inj c))
  | .error _, .ok _ => isFalse (fun h => Except.noConfusion h)
  | .ok _, .error _ => isFalse (fun h => Except.noConfusion h)
  | .ok a, .ok b =>
    if h : a = b then isTrue (by rw [h]) else isFalse (fun c => h (Except.ok.inj c))

/-- Runtime failures of the resolution: `typeError` is
`componentFields.join` applied to `null` (line 100); `outOfFuel` is the
model stand-in for unbounded recursion (never hit on acyclic data). -/
inductive JsErr where
  | typeError
  | outOfFuel
deriving DecidableEq, Repr

/-- One entry of an `AttributeSchema`: field name plus descriptor
`{ type, component? }`.  A schema is a `List Attr` in insertion order
(`Object.keys` enumerates string keys in insertion order). -/
structure Attr where
  name : String
  type : String
  component : Option String
deriving DecidableEq, Repr

/-- The HTTP boundary: `GET {url}/api/content-type-builder/components/{id}`,
abstracted to the attribute schema it yields (`none` = any fetch failure). -/
abbrev Env := String → String → Option (List Attr)

/-- The fixed media sub-selection appended after the field name (line 97). -/
def mediaBlock : String :=
  " \x7b\n      data \x7b\n        attributes \x7b\n          url\n        \x7d\n      \x7d\n    \x7d"

/-- The component sub-selection block (line 100): the field name, an
opening brace, the nested fields joined with newline-plus-indentation,
and a closing brace. -/
def componentBlock (field : String) (componentFields : List String) : String :=
  field ++ " \x7b\n      " ++ joinWith "\n      " componentFields ++ "\n    \x7d"

/-- The `console.error` line of the `catch` in `fetchComponentFields` (line 81). -/
def fetchErrorMsg (component : String) : String :=
  "Error fetching component " ++ component ++ ":"

/-- Outcome of one resolution step: the settled value (or thrown error),
the `console.error` log, and the trace of `(url, component)` GET requests. -/
abbrev ROut (α : Type) := Except JsErr α × List String × List (String × String)

/-- The `switch` of one field arrow function inside `parseFields`
(lines 94-104), parameterised by the function used to fetch a nested
component (`fetchComponentFields(config.url, attributes[field].component)`).
JS renders a missing `component` property as the string `"undefined"`
inside the template literal URL. -/
def resolveFieldWith (fetchFn : String → ROut (Option (List String))) (a : Attr) :
    ROut String :=
  if a.type = "media" then (.ok (a.name ++ mediaBlock), [], [])
  else if a.type = "component" then
    let r := fetchFn (a.component.getD "undefined")
    match r.1 with
    | .error e => (.error e, r.2.1, r.2.2)
    | .ok none => (.error .typeError, r.2.1, r.2.2)
    | .ok (some fields) => (.ok (componentBlock a.name fields), r.2.1, r.2.2)
  else (.ok a.name, [], [])

/-- Model of `parseFields` (lines 93-107) over an explicit fetch function: each field
is resolved independently by `resolveFieldWith` and the results are joined
back in the original field order (`Promise.all` keeps input order). -/
def parseFieldsWith (fetchFn : String → ROut (Option (List String))) :
    List Attr → ROut (List String)
  | [] => (.ok [], [], [])
  | a :: rest =>
    let r1 := resolveFieldWith fetchFn a
    match r1.1 with
    | .error e => (.error e, r1.2.1, r1.2.2)
    | .ok s =>
      let r2 := parseFieldsWith fetchFn rest
      match r2.1 with
      | .error e => (.error e, r1.2.1 ++ r2.2.1, r1.2.2 ++ r2.2.2)
      | .ok ss => (.ok (s :: ss), r1.2.1 ++ r2.2.1, r1.2.2 ++ r2.2.2)

/-- Model of `fetchComponentFields` (lines 75-84).  The `try` catches only the GET
and the response-shape access (modelled by `env url component = none`);
a rejection coming out of `parseFields` is *not* caught, because the
function returns the promise without awaiting it.  Nested fetches issued
by `parseFields` always target `cfg` (the global `config.url`), not the
`url` argument of the enclosing call. -/
def fetchComponentFields (env : Env) (cfg : String) :
    Nat → String → String → ROut (Option (List String))
  | 0, _, _ => (.error .outOfFuel, [], [])
  | fuel + 1, url, component =>
    match env url component with
    | none => (.ok none, [fetchErrorMsg component], [(url, component)])
    | some attrs =>
      let r := parseFieldsWith (fun ref => fetchComponentFields env cfg fuel cfg ref) attrs
      (r.1.map some, r.2.1, (url, component) :: r.2.2)

/-- Model of `parseFields` as called in context: nested component fetches go through
`fetchComponentFields(config.url, ·)` with the given fuel. -/
def parseFields (env : Env) (cfg : String) (fuel : Nat) (attrs : List Attr) :
    ROut (List String) :=
  parseFieldsWith (fun ref => fetchComponentFields env cfg fuel cfg ref) attrs

/-- Resolution of a single field in context. -/
def resolveField (env : Env) (cfg : String) (fuel : Nat) (a : Attr) : ROut String :=
  resolveFieldWith (fun ref => fetchComponentFields env cfg fuel cfg ref) a

/-! ### Artifact Emitter: the four template texts (lines 143-179)

The `prettier` formatter applied afterwards (lines 182-184) is an external
collaborator excluded by the spec, so the texts are modelled as produced by
the template literals, pre-formatting. -/

/-- The `gqlFragment` template literal (lines 143-150). -/
def gqlFragment (name collection : String) (attributes : List String) : String :=
  "\n    import \x7b gql \x7d from \x27graphql-tag\x27;\n\n    export const " ++ name
    ++ " = gql`\n      fragment " ++ name ++ " on " ++ collection ++ " \x7b\n        "
    ++ joinWith "\n    " attributes ++ "\n      \x7d\n  `;"

/-- The `componentCode` template literal (lines 152-169). -/
def componentCode (name : String) : String :=
  "\n    <template>\n      <div>\n        \x7b\x7b data \x7d\x7d\n      </div>\n    </template>\n\n    "
    ++ "<script setup lang=\"ts\">\n      import type \x7b " ++ name ++ " \x7d from \x27./"
    ++ lowerFirst name ++ ".types.ts\x27;\n\n      defineProps(\x7b\n        data: \x7b\n          "
    ++ "type: Object as PropType<" ++ name ++ ">,\n          required: true,\n        \x7d,\n      \x7d);\n    </script>\n  "

/-- The `componentTypesCode` template literal (lines 171-177). -/
def componentTypesCode (name : String) : String :=
  "\n    /**\n     * " ++ name ++ " section types.\n     */\n    export interface " ++ name
    ++ " \x7b\n    \x7d\n  "

/-- The barrel-export line `indexCode` (line 179). -/
def indexCode (name : String) : String :=
  "export \x7b " ++ name ++ " \x7d from \x27./sections/" ++ lowerFirst name ++ "\x27;\n"

/-- The four texts produced by one run for a component identifier: `none`
when the top-level fetch failed/rejected (then `attributes.join` or
`attributes` itself throws and the outer `catch` aborts before any write)
or when `processString` throws (identifier without a dot). -/
def generateTexts (env : Env) (cfg : String) (fuel : Nat) (component : String) :
    Option (String × String × String × String) :=
  match (fetchComponentFields env cfg fuel cfg component).1 with
  | .error _ => none
  | .ok none => none
  | .ok (some fields) =>
    match processString component.data with
    | none => none
    | some d =>
      let name := String.mk d.name
      let collection := String.mk d.collection
      some (gqlFragment name collection fields, componentCode name,
            componentTypesCode name, indexCode name)

/-! ### Path setup (lines 126-136, 187-189) and the filesystem model -/

/-- Model of `path.join`: empty segments are dropped, the rest joined with
`/` (no dot-segment normalisation is needed by the paths at hand). -/
def nodePathJoin (parts : List String) : String :=
  joinWith "/" (parts.filter fun p => !(p == ""))

/-- Model of `config.sectionsDir` (line 126). -/
def sectionsDir (cwd dir : String) : String :=
  nodePathJoin [cwd, dir, "components", "sections"]

/-- Model of `config.sectionsFragmentsDir` (line 127). -/
def sectionsFragmentsDir (cwd dir : String) : String :=
  nodePathJoin [cwd, dir, "graphql", "fragments", "sections"]

/-- Model of `config.sectionsFragmentsIndexDir` (line 128). -/
def sectionsFragmentsIndexDir (cwd dir : String) : String :=
  nodePathJoin [cwd, dir, "graphql", "fragments", "index.ts"]

/-- Model of `fragmentFilePath` (line 187). -/
def fragmentFilePath (cwd dir name : String) : String :=
  nodePathJoin [sectionsFragmentsDir cwd dir, lowerFirst name ++ ".ts"]

/-- Model of `componentFilePath` (line 188). -/
def componentFilePath (cwd dir name : String) : String :=
  nodePathJoin [sectionsDir cwd dir, name ++ ".vue"]

/-- Model of `componentTypesFilePath` (line 189). -/
def componentTypesFilePath (cwd dir name : String) : String :=
  nodePathJoin [sectionsDir cwd dir, lowerFirst name ++ ".types.ts"]

/-- The set of existing directories, as a list of paths. -/
def existsDir (dirs : List String) (d : String) : Bool := dirs.any (· == d)

/-- The path `d` together with every proper ancestor directory of `d`
(the prefixes ending just before a slash). -/
def ancestors (d : String) : List String :=
  d :: (List.range d.data.length).filterMap fun i =>
    if d.data.get? i = some '/' then some (String.mk (d.data.take i)) else none

/-- JS recursive `fs.mkdirSync`: creates `d` and any missing parents. -/
def mkdirSyncRec (dirs : List String) (d : String) : List String :=
  dirs ++ ancestors d

/-- The directory-creation prologue (lines 130-136). -/
def setupDirs (dirs : List String) (cwd dir : String) : List String :=
  let d1 := if existsDir dirs (sectionsDir cwd dir) then dirs
            else mkdirSyncRec dirs (sectionsDir cwd dir)
  if existsDir d1 (sectionsFragmentsDir cwd dir) then d1
  else mkdirSyncRec d1 (sectionsFragmentsDir cwd dir)

/-- A file system: association list from path to file contents (first match wins). -/
abbrev FS := List (String × String)

/-- JS `fs.existsSync` on files. -/
def existsSync (fs : FS) (p : String) : Bool := fs.any fun e => e.1 == p

/-- JS `fs.readFileSync` (missing file modelled as `""`; the code only reads
after a successful existence check). -/
def readFileSync (fs : FS) (p : String) : String :=
  ((fs.find? fun e => e.1 == p).map Prod.snd).getD ""

/-- JS `fs.appendFileSync`: appends to the existing contents, creating the
file if absent. -/
def appendFileSync (fs : FS) (p s : String) : FS :=
  if fs.any (fun e => e.1 == p) then
    fs.map fun e => if e.1 == p then (e.1, e.2 ++ s) else e
  else fs ++ [(p, s)]

/-- JS `includes` on strings. -/
def containsSubS (h n : String) : Bool := containsSubL h.data n.data

/-- Occurrence count of `n` in `h` (number of starting positions). -/
def countSubS (h n : String) : Nat := countSubL h.data n.data

/-- The file-write epilogue (lines 192-214): each of the three files is
appended only when absent; the barrel line is appended unless the index
file exists and already contains it verbatim (in which case the IIFE
returns early). -/
def writeArtifacts (fs : FS) (pFrag pComp pTypes pIndex cFrag cComp cTypes cIndex : String) : FS :=
  let fs1 := if existsSync fs pFrag then fs else appendFileSync fs pFrag cFrag
  let fs2 := if existsSync fs1 pComp then fs1 else appendFileSync fs1 pComp cComp
  let fs3 := if existsSync fs2 pTypes then fs2 else appendFileSync fs2 pTypes cTypes
  if existsSync fs3 pIndex && containsSubS (readFileSync fs3 pIndex) cIndex then fs3
  else appendFileSync fs3 pIndex cIndex

/-! ### Helper lemmas about resolver request traces -/

theorem resolveFieldWith_reqs (f : String → ROut (Option (List String))) (a : Attr) :
    (resolveFieldWith f a).2.2
      = if a.type = "media" then []
        else if a.type = "component" then (f (a.component.getD "undefined")).2.2
        else [] := by
  by_cases h1 : a.type = "media"
  · simp [resolveFieldWith, h1]
  · by_cases h2 : a.type = "component"
    · rcases hfx : (f (a.component.getD "undefined")).1 with e | o
      · simp [resolveFieldWith, h1, h2, hfx]
      · rcases o with _ | fields <;> simp [resolveFieldWith, h1, h2, hfx]
    · simp [resolveFieldWith, h1, h2]

theorem mem_parse_cons_of_mem_resolve (f : String → ROut (Option (List String)))
    (a : Attr) (rest : List Attr) (p : String × String)
    (hp : p ∈ (resolveFieldWith f a).2.2) :
    p ∈ (parseFieldsWith f (a :: rest)).2.2 := by
  rcases h1 : (resolveFieldWith f a).1 with e | s
  · simp [parseFieldsWith, h1, hp]
  · rcases h2 : (parseFieldsWith f rest).1 with e | ss <;>
      simp [parseFieldsWith, h1, h2, List.mem_append, hp]

theorem mem_parse_cons_of_mem_rest (f : String → ROut (Option (List String)))
    (a : Attr) (rest : List Attr) (p : String × String) (s : String)
    (h1 : (resolveFieldWith f a).1 = .ok s)
    (hp : p ∈ (parseFieldsWith f rest).2.2) :
    p ∈ (parseFieldsWith f (a :: rest)).2.2 := by
  rcases h2 : (parseFieldsWith f rest).1 with e | ss <;>
    simp [parseFieldsWith, h1, h2, List.mem_append, hp]

theorem mem_resolve_or_rest_of_mem_parse_cons (f : String → ROut (Option (List String)))
    (a : Attr) (rest : List Attr) (p : String × String)
    (hp : p ∈ (parseFieldsWith f (a :: rest)).2.2) :
    p ∈ (resolveFieldWith f a).2.2 ∨ p ∈ (parseFieldsWith f rest).2.2 := by
  rcases h1 : (resolveFieldWith f a).1 with e | s
  · simp only [parseFieldsWith, h1] at hp
    exact Or.inl hp
  · rcases h2 : (parseFieldsWith f rest).1 with e | ss <;>
    · simp only [parseFieldsWith, h1, h2] at hp
      exact List.mem_append.mp hp

theorem self_mem_fetch_reqs (env : Env) (cfg : String) (n : Nat) (url component : String) :
    (url, component) ∈ (fetchComponentFields env cfg (n + 1) url component).2.2 := by
  rcases he : env url component with _ | attrs <;> simp [fetchComponentFields, he]

theorem fetch_succ_some_reqs (env : Env) (cfg : String) (n : Nat) (url component : String)
    (attrs : List Attr) (he : env url component = some attrs) :
    (fetchComponentFields env cfg (n + 1) url component).2.2
      = (url, component)
          :: (parseFieldsWith (fun ref => fetchComponentFields env cfg n cfg ref) attrs).2.2 := by
  simp [fetchComponentFields, he]

/-- All requests of `parseFieldsWith f` come from `f`. -/
theorem parse_reqs_of (f : String → ROut (Option (List String)))
    (A : String × String → Prop) (hf : ∀ ref p, p ∈ (f ref).2.2 → A p) :
    ∀ (attrs : List Attr) (p : String × String), p ∈ (parseFieldsWith f attrs).2.2 → A p := by
  intro attrs
  induction attrs with
  | nil => intro p hp; simp [parseFieldsWith] at hp
  | cons a rest ih =>
    intro p hp
    rcases mem_resolve_or_rest_of_mem_parse_cons f a rest p hp with h | h
    · rw [resolveFieldWith_reqs] at h
      by_cases h1 : a.type = "media"
      · simp [h1] at h
      · by_cases h2 : a.type = "component"
        · simp only [if_neg h1, if_pos h2] at h
          exact hf _ p h
        · simp [h1, h2] at h
    · exact ih p h

/-- Every request of a fetch targets either its own `url` (the first-level
request) or the global `cfg` (all nested requests). -/
theorem fetch_reqs_url_or_cfg (env : Env) (cfg : String) :
    ∀ (fuel : Nat) (url component : String) (p : String × String),
      p ∈ (fetchComponentFields env cfg fuel url component).2.2 →
      p.1 = url ∨ p.1 = cfg := by
  intro fuel
  induction fuel with
  | zero => intro url comp p hp; simp [fetchComponentFields] at hp
  | succ n ih =>
    intro url comp p hp
    rcases he : env url comp with _ | attrs
    · simp [fetchComponentFields, he] at hp
      rw [hp]
      exact Or.inl rfl
    · rw [fetch_succ_some_reqs env cfg n url comp attrs he] at hp
      rcases List.mem_cons.mp hp with rfl | hp'
      · exact Or.inl rfl
      · refine Or.inr ?_
        have := parse_reqs_of (fun ref => fetchComponentFields env cfg n cfg ref)
          (fun q => q.1 = cfg) (fun ref q hq => ?_) attrs p hp'
        · exact this
        · rcases ih cfg ref q hq with h | h <;> exact h

/-- Requests of `parseFields` (the in-context instance) all target `cfg`. -/
theorem parseFields_reqs_cfg (env : Env) (cfg : String) (fuel : Nat)
    (attrs : List Attr) (p : String × String)
    (hp : p ∈ (parseFields env cfg fuel attrs).2.2) : p.1 = cfg := by
  refine parse_reqs_of (fun ref => fetchComponentFields env cfg fuel cfg ref)
    (fun q => q.1 = cfg) (fun ref q hq => ?_) attrs p hp
  rcases fetch_reqs_url_or_cfg env cfg fuel cfg ref q hq with h | h <;> exact h

/-- If the resolution of any member field throws, the whole `parseFieldsWith`
run rejects (sequentially, at the first throwing field in list order). -/
theorem parseFieldsWith_error_of_mem (f : String → ROut (Option (List String))) :
    ∀ (attrs : List Attr) (a : Attr), a ∈ attrs →
      (∃ e, (resolveFieldWith f a).1 = .error e) →
      ∃ e, (parseFieldsWith f attrs).1 = .error e := by
  intro attrs
  induction attrs with
  | nil => intro a ha; simp at ha
  | cons b rest ih =>
    rintro a ha ⟨e, he⟩
    rcases List.mem_cons.mp ha with rfl | hmem
    · exact ⟨e, by simp [parseFieldsWith, he]⟩
    · rcases hb : (resolveFieldWith f b).1 with eb | s
      · exact ⟨eb, by simp [parseFieldsWith, hb]⟩
      · rcases ih a hmem ⟨e, he⟩ with ⟨e', he'⟩
        exact ⟨e', by simp [parseFieldsWith, hb, he']⟩

/-! ### Congruence: the run depends on the environment only through the
requests it actually issues -/

theorem resolveFieldWith_congr (A : String × String → Prop)
    (f f' : String → ROut (Option (List String)))
    (hf : ∀ ref, (∀ p ∈ (f ref).2.2, A p) → f' ref = f ref) (a : Attr)
    (hA : ∀ p ∈ (resolveFieldWith f a).2.2, A p) :
    resolveFieldWith f' a = resolveFieldWith f a := by
  by_cases h1 : a.type = "media"
  · simp [resolveFieldWith, h1]
  · by_cases h2 : a.type = "component"
    · have hsub : ∀ p, p ∈ (f (a.component.getD "undefined")).2.2 →
          p ∈ (resolveFieldWith f a).2.2 := by
        intro p hp
        rw [resolveFieldWith_reqs]
        simp [h1, h2, hp]
      have heq := hf _ fun p hp => hA p (hsub p hp)
      simp only [resolveFieldWith, if_neg h1, if_pos h2, heq]
    · simp [resolveFieldWith, h1, h2]

theorem parseFieldsWith_congr (A : String × String → Prop)
    (f f' : String → ROut (Option (List String)))
    (hf : ∀ ref, (∀ p ∈ (f ref).2.2, A p) → f' ref = f ref) :
    ∀ attrs : List Attr, (∀ p ∈ (parseFieldsWith f attrs).2.2, A p) →
      parseFieldsWith f' attrs = parseFieldsWith f attrs := by
  intro attrs
  induction attrs with
  | nil => intro _; rfl
  | cons a rest ih =>
    intro hA
    have ha := resolveFieldWith_congr A f f' hf a
      fun p hp => hA p (mem_parse_cons_of_mem_resolve f a rest p hp)
    rcases h1 : (resolveFieldWith f a).1 with e | s
    · simp only [parseFieldsWith, ha, h1]
    · have hrest := ih fun p hp => hA p (mem_parse_cons_of_mem_rest f a rest p s h1 hp)
      simp only [parseFieldsWith, ha, h1, hrest]

theorem fetchComponentFields_congr (env env' : Env) (cfg : String) :
    ∀ (fuel : Nat) (url component : String),
      (∀ p ∈ (fetchComponentFields env cfg fuel url component).2.2,
        env' p.1 p.2 = env p.1 p.2) →
      fetchComponentFields env' cfg fuel url component
        = fetchComponentFields env cfg fuel url component := by
  intro fuel
  induction fuel with
  | zero => intro url comp _; rfl
  | succ n ih =>
    intro url comp hA
    have hf : ∀ ref, (∀ p ∈ (fetchComponentFields env cfg n cfg ref).2.2,
        env' p.1 p.2 = env p.1 p.2) →
        fetchComponentFields env' cfg n cfg ref = fetchComponentFields env cfg n cfg ref :=
      fun ref h => ih cfg ref h
    have hcomp : env' url comp = env url comp :=
      hA (url, comp) (self_mem_fetch_reqs env cfg n url comp)
    rcases he : env url comp with _ | attrs
    · rw [he] at hcomp
      simp [fetchComponentFields, he, hcomp]
    · rw [he] at hcomp
      have hparse := parseFieldsWith_congr (fun p => env' p.1 p.2 = env p.1 p.2) _ _ hf attrs
        fun p hp => hA p (by
          rw [fetch_succ_some_reqs env cfg n url comp attrs he]
          exact List.mem_cons_of_mem _ hp)
      simp [fetchComponentFields, he, hcomp, hparse]

/-! ### Helper lemmas for paths and the filesystem model -/

/-- Proposition: `p` is a prefix of `s` (as strings). -/
def strPrefixOf (p s : String) : Prop := ∃ t, p ++ t = s

theorem strPrefixOf_trans {a b c : String} (h1 : strPrefixOf a b) (h2 : strPrefixOf b c) :
    strPrefixOf a c := by
  rcases h1 with ⟨t1, rfl⟩
  rcases h2 with ⟨t2, rfl⟩
  exact ⟨t1 ++ t2, (String.append_assoc a t1 t2).symm⟩

theorem str_append_ne_empty_right (s t : String) (h : t ≠ "") : s ++ t ≠ "" := by
  intro hc
  apply h
  have hd := congrArg String.data hc
  rw [String.data_append] at hd
  have h2 := (List.append_eq_nil.mp hd).2
  calc t = String.mk t.data := rfl
    _ = String.mk [] := by rw [h2]
    _ = "" := rfl

theorem nodePathJoin_append_single (parts : List String) (e : String) (he : e ≠ "") :
    strPrefixOf (nodePathJoin parts) (nodePathJoin (parts ++ [e])) := by
  unfold nodePathJoin
  rw [List.filter_append]
  have hfe : List.filter (fun p => !(p == "")) [e] = [e] := by simp [he]
  rw [hfe]
  rcases hl : List.filter (fun p => !(p == "")) parts with _ | ⟨a, as⟩
  · exact ⟨e, by simp [joinWith]⟩
  · refine ⟨"/" ++ e, ?_⟩
    show joinWith "/" (a :: as) ++ ("/" ++ e) = joinWith "/" (a :: (as ++ [e]))
    have h1 : joinWith "/" (a :: (as ++ [e]))
        = List.foldl (fun acc y => acc ++ "/" ++ y) a (as ++ [e]) := rfl
    have h2 : joinWith "/" (a :: as) = List.foldl (fun acc y => acc ++ "/" ++ y) a as := rfl
    rw [h1, h2, List.foldl_append, List.foldl_cons, List.foldl_nil]
    exact (String.append_assoc _ _ _).symm

theorem nodePathJoin_pair (S f : String) (hf : f ≠ "") :
    strPrefixOf S (nodePathJoin [S, f]) := by
  by_cases hS : S = ""
  · subst hS
    exact ⟨nodePathJoin ["", f], String.empty_append _⟩
  · refine ⟨"/" ++ f, ?_⟩
    show S ++ ("/" ++ f) = nodePathJoin [S, f]
    unfold nodePathJoin
    simp only [List.filter_cons, List.filter_nil]
    rw [show (!(S == "")) = true by simp [hS], show (!(f == "")) = true by simp [hf]]
    simp only [if_true, joinWith, List.foldl]
    rw [String.append_assoc]

theorem mem_of_existsDir {dirs : List String} {d : String} (h : existsDir dirs d = true) :
    d ∈ dirs := by
  simp only [existsDir, List.any_eq_true, beq_iff_eq] at h
  rcases h with ⟨x, hx, rfl⟩
  exact hx

theorem self_mem_ancestors (d : String) : d ∈ ancestors d := List.mem_cons_self d _

/-- Reflexivity of `isPrefixOf`. -/
theorem isPrefixOf_self : ∀ l : List Char, l.isPrefixOf l = true
  | [] => rfl
  | c :: cs => by simp [List.isPrefixOf, isPrefixOf_self cs]

/-- A list recognised by `isPrefixOf` is no longer than the list it prefixes. -/
theorem length_le_of_isPrefixOf :
    ∀ l1 l2 : List Char, l1.isPrefixOf l2 = true → l1.length ≤ l2.length
  | [], _, _ => Nat.zero_le _
  | a :: as, [], h => by simp [List.isPrefixOf] at h
  | a :: as, b :: bs, h => by
    simp only [List.isPrefixOf, Bool.and_eq_true] at h
    exact Nat.succ_le_succ (length_le_of_isPrefixOf as bs h.2)

theorem containsSubS_self (s : String) : containsSubS s s = true := by
  simp only [containsSubS, containsSubL, List.any_eq_true]
  exact ⟨0, List.mem_range.mpr (Nat.succ_pos _), by simp [isPrefixOf_self]⟩

theorem countSubS_self (s : String) (h : s ≠ "") : countSubS s s = 1 := by
  have hd : s.data ≠ [] := by
    intro hc
    apply h
    calc s = String.mk s.data := rfl
      _ = String.mk [] := by rw [hc]
      _ = "" := rfl
  have hpos : 0 < s.data.length := List.length_pos.mpr hd
  have hlen : ∀ a ∈ (List.range s.data.length).map Nat.succ,
      ¬(s.data.isPrefixOf (s.data.drop a) = true) := by
    intro a ha hpre
    rcases List.mem_map.mp ha with ⟨j, hj, rfl⟩
    have hle := length_le_of_isPrefixOf _ _ hpre
    rw [List.length_drop] at hle
    omega
  unfold countSubS countSubL
  rw [List.range_succ_eq_map, List.filter_cons]
  simp only [List.drop_zero, isPrefixOf_self, if_true]
  rw [List.filter_eq_nil_iff.mpr hlen]
  rfl

/-! ### Helper lemmas about `splitP` -/

theorem splitP_ne_nil (p : Char → Bool) : ∀ l, splitP p l ≠ []
  | [] => by simp [splitP]
  | c :: cs => by
    simp only [splitP]
    split
    · simp
    · split
      · simp
      · simp

theorem splitP_sepFree (p : Char → Bool) : ∀ l, (∀ x ∈ l, p x = false) → splitP p l = [l]
  | [], _ => rfl
  | c :: cs, h => by
    have hc : p c = false := h c (List.mem_cons_self c cs)
    have ih := splitP_sepFree p cs fun x hx => h x (List.mem_cons_of_mem c hx)
    simp [splitP, hc, ih]

theorem splitP_append_sep (p : Char → Bool) (sep : Char) (hsep : p sep = true) :
    ∀ ns rest, (∀ x ∈ ns, p x = false) →
      splitP p (ns ++ sep :: rest) = ns :: splitP p rest
  | [], rest, _ => by simp [splitP, hsep]
  | c :: ns, rest, h => by
    have hc : p c = false := h c (List.mem_cons_self c ns)
    have ih := splitP_append_sep p sep hsep ns rest fun x hx => h x (List.mem_cons_of_mem c hx)
    simp [splitP, hc, ih]

/-- C4: for every valid `ComponentIdentifier` of the shape `ns.a-b-c`
(namespace and the three kebab segments free of `.` and `-`),
`processString` returns `displayName` = PascalCase join of the hyphen-split
segments after the first dot, and `typeName` = `"Component"` followed by
the PascalCase join of all dot/hyphen-split segments, namespace included. -/
theorem C4_processString_pascal :
    ∀ ns a b c : List Char,
      (∀ x ∈ ns, x ≠ '.' ∧ x ≠ '-') → (∀ x ∈ a, x ≠ '.' ∧ x ≠ '-') →
      (∀ x ∈ b, x ≠ '.' ∧ x ≠ '-') → (∀ x ∈ c, x ≠ '.' ∧ x ≠ '-') →
      processString (ns ++ '.' :: (a ++ '-' :: (b ++ '-' :: c)))
        = some ⟨capitalizeSeg a ++ capitalizeSeg b ++ capitalizeSeg c,
                "Component".data ++ capitalizeSeg ns ++ capitalizeSeg a
                  ++ capitalizeSeg b ++ capitalizeSeg c⟩ := by
  intro ns a b c hns ha hb hc
  have hdd : ∀ (l : List Char), (∀ x ∈ l, x ≠ '.' ∧ x ≠ '-') →
      ∀ x ∈ l, (x == '-' || x == '.') = false := by
    intro l h x hx
    have hx' := h x hx
    simp only [Bool.or_eq_false_iff, beq_eq_false_iff_ne]
    exact ⟨hx'.2, hx'.1⟩
  have hdot : ∀ (l : List Char), (∀ x ∈ l, x ≠ '.' ∧ x ≠ '-') →
      ∀ x ∈ l, (x == '.') = false := by
    intro l h x hx
    simp only [beq_eq_false_iff_ne]
    exact (h x hx).1
  have hdash : ∀ (l : List Char), (∀ x ∈ l, x ≠ '.' ∧ x ≠ '-') →
      ∀ x ∈ l, (x == '-') = false := by
    intro l h x hx
    simp only [beq_eq_false_iff_ne]
    exact (h x hx).2
  have hrest : ∀ x ∈ a ++ '-' :: (b ++ '-' :: c), x ≠ '.' := by
    intro x hx
    simp only [List.mem_append, List.mem_cons] at hx
    rcases hx with h1 | h1 | h1 | h1 | h1
    · exact (ha x h1).1
    · subst h1; decide
    · exact (hb x h1).1
    · subst h1; decide
    · exact (hc x h1).1
  have h1 : splitP (fun c => c == '-' || c == '.') (ns ++ '.' :: (a ++ '-' :: (b ++ '-' :: c)))
      = ns :: (a :: (b :: [c])) := by
    rw [splitP_append_sep _ '.' (by decide) ns _ (hdd ns hns),
        splitP_append_sep _ '-' (by decide) a _ (hdd a ha),
        splitP_append_sep _ '-' (by decide) b _ (hdd b hb),
        splitP_sepFree _ c (hdd c hc)]
  have h2 : splitP (fun c => c == '.') (ns ++ '.' :: (a ++ '-' :: (b ++ '-' :: c)))
      = [ns, a ++ '-' :: (b ++ '-' :: c)] := by
    rw [splitP_append_sep _ '.' (by decide) ns _ (hdot ns hns),
        splitP_sepFree _ _ (fun x hx => by
          simp only [beq_eq_false_iff_ne]; exact hrest x hx)]
  have h3 : splitP (fun c => c == '-') (a ++ '-' :: (b ++ '-' :: c)) = [a, b, c] := by
    rw [splitP_append_sep _ '-' (by decide) a _ (hdash a ha),
        splitP_append_sep _ '-' (by decide) b _ (hdash b hb),
        splitP_sepFree _ c (hdash c hc)]
  simp [processString, h1, h2, h3, List.append_assoc]

/-- C4 witness: `ns.a-b-c` yields `displayName = "ABC"` and
`typeName = "ComponentNsABC"`. -/
theorem C4_witness :
    processString ("ns".data ++ '.' :: ("a".data ++ '-' :: ("b".data ++ '-' :: "c".data)))
      = some ⟨"ABC".data, "ComponentNsABC".data⟩ := by
  rw [C4_processString_pascal "ns".data "a".data "b".data "c".data
      (by decide) (by decide) (by decide) (by decide)]
  decide

/-- C7 counterexample: on the valid identifier `ns.x-ans` the derived
`displayName` is `XAns`, which does contain the namespace segment `ns`
as a substring, so the containment invariant of the claim fails as stated. -/
theorem C7_counterexample :
    processString "ns.x-ans".data = some ⟨"XAns".data, "ComponentNsXAns".data⟩
      ∧ containsSubL "XAns".data "ns".data = true := by decide

/-- C7 amended: whenever `processString` succeeds, the `typeName`
(`collection`) begins with the literal token `Component`, and the
`displayName` (`name`) is built exclusively from the part of the
identifier after the first dot: any two identifiers with the same
second dot-segment derive the same `displayName` (the namespace segment
is never used in it). -/
theorem C7_names_invariant :
    ∀ (s s' : List Char) (d d' : DerivedNames),
      processString s = some d → processString s' = some d' →
      ("Component".data <+: d.collection)
      ∧ ((splitP (fun c => c == '.') s).get? 1 = (splitP (fun c => c == '.') s').get? 1 →
         d.name = d'.name) := by
  intro s s' d d' h h'
  simp only [processString] at h h'
  cases hs : (splitP (fun c => c == '.') s).get? 1 with
  | none => rw [hs] at h; simp at h
  | some second =>
    rw [hs] at h
    cases hs' : (splitP (fun c => c == '.') s').get? 1 with
    | none => rw [hs'] at h'; simp at h'
    | some second' =>
      rw [hs'] at h'
      simp only [Option.some.injEq] at h h'
      constructor
      · rw [← h]
        exact ⟨_, rfl⟩
      · intro heq
        rw [← h, ← h']
        simp only [Option.some.injEq] at heq
        rw [heq]

/-- C7 witness: instance of the amended invariant at `ns.x-ans` and
`other.x-ans` (same part after the dot, different namespaces). -/
theorem C7_witness :
    ("Component".data <+: "ComponentNsXAns".data) ∧ ("XAns".data = "XAns".data) := by
  have h := C7_names_invariant "ns.x-ans".data "other.x-ans".data
      ⟨"XAns".data, "ComponentNsXAns".data⟩ ⟨"XAns".data, "ComponentOtherXAns".data⟩
      (by decide) (by decide)
  exact ⟨h.1, h.2 (by decide)⟩

/-! ### Concrete environments for the resolver claims -/

/-- Environment of the worked example of the spec: `ns.card` resolves to
the single scalar field `text`; everything else fails to fetch. -/
def envC1 : Env := fun _ c =>
  if c = "ns.card" then some [⟨"text", "string", none⟩] else none

/-- The example schema of the spec: title scalar, image media, hero
component referencing `ns.card`. -/
def attrsC1 : List Attr :=
  [⟨"title", "string", none⟩, ⟨"image", "media", none⟩, ⟨"hero", "component", some "ns.card"⟩]

/-- Environment for C2: `sec.hero` has a scalar sibling `title` and a
component field `hero` whose sub-schema `ns.missing` fails to fetch. -/
def envC2 : Env := fun _ c =>
  if c = "sec.hero" then
    some [⟨"title", "string", none⟩, ⟨"hero", "component", some "ns.missing"⟩]
  else none

/-- C1 counterexample: on the example schema the resolved list is *not*
the literal string list of the claim (the code renders the media and
component blocks with newline indentation, not single spaces). -/
theorem C1_counterexample :
    (parseFields envC1 "http://localhost:1337" 2 attrsC1).1
      ≠ .ok ["title", "image \x7b data \x7b attributes \x7b url \x7d \x7d \x7d",
             "hero \x7b text \x7d"] := by decide

/-- C1 amended: on the example schema the resolved selections come back
exactly in schema insertion order — `title`, then the media block for
`image`, then the `hero` wrapper around the `text` of `ns.card` — and
collapsing whitespace runs turns them into precisely the three strings
of the claim.  Moreover (independence of evaluation order): each
selection is produced by `resolveField` from its own field alone, and
`parseFields` merely joins those independent per-field results back in
the original field order. -/
theorem C1_parseFields_order :
    ((parseFields envC1 "http://localhost:1337" 2 attrsC1).1
        = .ok ["title", "image" ++ mediaBlock, "hero \x7b\n      text\n    \x7d"]
      ∧ ["title", "image" ++ mediaBlock, "hero \x7b\n      text\n    \x7d"].map squashWs
        = ["title", "image \x7b data \x7b attributes \x7b url \x7d \x7d \x7d",
           "hero \x7b text \x7d"])
    ∧ ∀ (env : Env) (cfg : String) (fuel : Nat) (a : Attr) (attrs : List Attr),
        (parseFields env cfg fuel ([] : List Attr)).1 = .ok []
        ∧ (parseFields env cfg fuel (a :: attrs)).1
            = (do
                let s ← (resolveField env cfg fuel a).1
                let ss ← (parseFields env cfg fuel attrs).1
                pure (s :: ss)) := by
  refine ⟨⟨by decide, by decide⟩, ?_⟩
  intro env cfg fuel a attrs
  refine ⟨rfl, ?_⟩
  show (parseFieldsWith (fun ref => fetchComponentFields env cfg fuel cfg ref) (a :: attrs)).1 = _
  rcases h1 : (resolveFieldWith (fun ref => fetchComponentFields env cfg fuel cfg ref) a).1
    with e | s
  · simp [parseFieldsWith, resolveField, h1, Bind.bind, Except.bind]
  · rcases h2 : (parseFieldsWith (fun ref => fetchComponentFields env cfg fuel cfg ref) attrs).1
      with e | ss <;>
      simp [parseFieldsWith, parseFields, resolveField, h1, h2, Bind.bind, Except.bind,
        Pure.pure, Except.pure]

/-- C2 counterexample: with a scalar sibling `title` and a component field
whose sub-schema fetch fails, the top-level resolution does *not* resolve
with the sibling selections — it rejects with the `TypeError` thrown by
`componentFields.join` on `null`. -/
theorem C2_counterexample :
    (fetchComponentFields envC2 "u" 3 "u" "sec.hero").1 = .error .typeError
      ∧ ∀ l : List String,
          (fetchComponentFields envC2 "u" 3 "u" "sec.hero").1 ≠ .ok (some l) := by
  have h : (fetchComponentFields envC2 "u" 3 "u" "sec.hero").1 = .error .typeError := by decide
  refine ⟨h, ?_⟩
  intro l hl
  rw [h] at hl
  exact Except.noConfusion hl

/-- C2 amended: when the sub-schema fetch of a nested `component`-typed
field yields `null`, the wrapping step throws (`null.join` is a
`TypeError`); the rejection is not caught, so any `parseFields` run over
a schema containing that field fails with an error — and so does the
enclosing `fetchComponentFields` of the parent — instead of returning the
selections of the sibling fields. -/
theorem C2_failure_propagates :
    ∀ (env : Env) (cfg : String) (fuel : Nat) (n ref : String),
      (fetchComponentFields env cfg fuel cfg ref).1 = .ok none →
      (resolveField env cfg fuel ⟨n, "component", some ref⟩).1 = .error .typeError
      ∧ ∀ attrs : List Attr, (⟨n, "component", some ref⟩ : Attr) ∈ attrs →
          (∃ e, (parseFields env cfg fuel attrs).1 = .error e)
          ∧ ∀ url pc, env url pc = some attrs →
              ∃ e, (fetchComponentFields env cfg (fuel + 1) url pc).1 = .error e := by
  intro env cfg fuel n ref hfail
  have hres : (resolveField env cfg fuel ⟨n, "component", some ref⟩).1 = .error .typeError := by
    simp [resolveField, resolveFieldWith, hfail]
  refine ⟨hres, ?_⟩
  intro attrs hmem
  have hparse := parseFieldsWith_error_of_mem
    (fun r => fetchComponentFields env cfg fuel cfg r) attrs _ hmem ⟨_, hres⟩
  refine ⟨hparse, ?_⟩
  intro url pc henv
  rcases hparse with ⟨e, he⟩
  refine ⟨e, ?_⟩
  have he' : (parseFieldsWith (fun r => fetchComponentFields env cfg fuel cfg r) attrs).1
      = .error e := he
  simp [fetchComponentFields, henv, he', Except.map]

/-- C2 witness: instance of the amended propagation on `envC2`. -/
theorem C2_witness :
    ∃ e, (fetchComponentFields envC2 "u" 3 "u" "sec.hero").1 = Except.error e := by
  have h := C2_failure_propagates envC2 "u" 2 "hero" "ns.missing" (by decide)
  exact (h.2 [⟨"title", "string", none⟩, ⟨"hero", "component", some "ns.missing"⟩]
    (by decide)).2 "u" "sec.hero" (by decide)

/-- C3: field classification by type descriptor — `media` yields the field
name followed by the fixed `data { attributes { url } }` block, `component`
yields a block named after the field wrapping the recursively resolved
field list, and any other type yields the bare field name. -/
theorem C3_field_classification :
    ∀ (env : Env) (cfg : String) (fuel : Nat) (n : String) (comp : Option String),
      ((resolveField env cfg fuel ⟨n, "media", comp⟩).1 = .ok (n ++ mediaBlock))
      ∧ (∀ ref fields, (fetchComponentFields env cfg fuel cfg ref).1 = .ok (some fields) →
          (resolveField env cfg fuel ⟨n, "component", some ref⟩).1
            = .ok (componentBlock n fields))
      ∧ (∀ t, t ≠ "media" → t ≠ "component" →
          (resolveField env cfg fuel ⟨n, t, comp⟩).1 = .ok n) := by
  intro env cfg fuel n comp
  refine ⟨?_, ?_, ?_⟩
  · simp [resolveField, resolveFieldWith]
  · intro ref fields h
    simp [resolveField, resolveFieldWith, h]
  · intro t h1 h2
    simp [resolveField, resolveFieldWith, h1, h2]

/-- C3 witness: the three classifications on concrete fields of `envC1`. -/
theorem C3_witness :
    (resolveField envC1 "u" 1 ⟨"image", "media", none⟩).1 = .ok ("image" ++ mediaBlock)
    ∧ (resolveField envC1 "u" 1 ⟨"hero", "component", some "ns.card"⟩).1
        = .ok (componentBlock "hero" ["text"])
    ∧ (resolveField envC1 "u" 1 ⟨"title", "string", none⟩).1 = .ok "title" := by
  refine ⟨(C3_field_classification envC1 "u" 1 "image" none).1, ?_, ?_⟩
  · exact (C3_field_classification envC1 "u" 1 "hero" none).2.1 "ns.card" ["text"] (by decide)
  · exact (C3_field_classification envC1 "u" 1 "title" none).2.2 "string" (by decide) (by decide)

/-- C6: when the schema fetch fails (`env url component = none` covers
transport errors, non-2xx statuses and malformed bodies, all thrown inside
the `try`), `fetchComponentFields` logs a diagnostic naming the failing
component, returns `null` to its caller instead of propagating, and issues
exactly one request — no retry. -/
theorem C6_fetch_failure_nonfatal :
    ∀ (env : Env) (cfg : String) (fuel : Nat) (url component : String),
      env url component = none →
      fetchComponentFields env cfg (fuel + 1) url component
        = (.ok none, [fetchErrorMsg component], [(url, component)]) := by
  intro env cfg fuel url component h
  simp [fetchComponentFields, h]

/-- C6 witness: a concrete failing fetch. -/
theorem C6_witness :
    fetchComponentFields (fun _ _ => none) "u" 1 "http://localhost:1337" "ns.card"
      = (.ok none, [fetchErrorMsg "ns.card"], [("http://localhost:1337", "ns.card")]) :=
  C6_fetch_failure_nonfatal (fun _ _ => none) "u" 0 "http://localhost:1337" "ns.card" rfl

/-- C9: the `url` argument of `fetchComponentFields` affects only the
first-level request: two calls with different `url`s but the same
first-level response produce traces differing only in the head request,
with a common tail of nested requests that all target the global
`config.url`, and identical results. -/
theorem C9_nested_requests_config_url :
    ∀ (env : Env) (cfg : String) (fuel : Nat) (u1 u2 component : String),
      env u1 component = env u2 component →
      ∃ rest,
        (fetchComponentFields env cfg (fuel + 1) u1 component).2.2 = (u1, component) :: rest
        ∧ (fetchComponentFields env cfg (fuel + 1) u2 component).2.2 = (u2, component) :: rest
        ∧ (∀ p ∈ rest, p.1 = cfg)
        ∧ (fetchComponentFields env cfg (fuel + 1) u1 component).1
            = (fetchComponentFields env cfg (fuel + 1) u2 component).1 := by
  intro env cfg fuel u1 u2 component h
  rcases he : env u2 component with _ | attrs
  · rw [he] at h
    exact ⟨[], by simp [fetchComponentFields, h], by simp [fetchComponentFields, he],
      by simp, by simp [fetchComponentFields, h, he]⟩
  · rw [he] at h
    refine ⟨(parseFieldsWith (fun ref => fetchComponentFields env cfg fuel cfg ref) attrs).2.2,
      by simp [fetchComponentFields, h], by simp [fetchComponentFields, he], ?_,
      by simp [fetchComponentFields, h, he]⟩
    intro p hp
    exact parseFields_reqs_cfg env cfg fuel attrs p hp

/-- C9 witness: two first-level urls over `envC1`. -/
theorem C9_witness :
    ∃ rest,
      (fetchComponentFields envC1 "http://localhost:1337" 2 "http://a" "ns.card").2.2
        = ("http://a", "ns.card") :: rest
      ∧ (fetchComponentFields envC1 "http://localhost:1337" 2 "http://b" "ns.card").2.2
          = ("http://b", "ns.card") :: rest
      ∧ (∀ p ∈ rest, p.1 = "http://localhost:1337")
      ∧ (fetchComponentFields envC1 "http://localhost:1337" 2 "http://a" "ns.card").1
          = (fetchComponentFields envC1 "http://localhost:1337" 2 "http://b" "ns.card").1 :=
  C9_nested_requests_config_url envC1 "http://localhost:1337" 1 "http://a" "http://b"
    "ns.card" rfl

/-- C10: determinism/noninterference of generation — the four produced
texts are a function of the component identifier and of the schema
responses for the components actually fetched: any environment agreeing
with `env` on every request of the run yields identical texts. -/
theorem C10_generation_deterministic :
    ∀ (env env2 : Env) (cfg : String) (fuel : Nat) (component : String),
      (∀ p ∈ (fetchComponentFields env cfg fuel cfg component).2.2,
        env2 p.1 p.2 = env p.1 p.2) →
      generateTexts env2 cfg fuel component = generateTexts env cfg fuel component := by
  intro env env2 cfg fuel component hA
  unfold generateTexts
  rw [fetchComponentFields_congr env env2 cfg fuel cfg component hA]

/-- C10 witness: an environment differing from `envC1` outside the
requests of the run generates the same four texts for `ns.card`. -/
theorem C10_witness :
    generateTexts (fun u c => if c = "zzz.other" then some [] else envC1 u c)
        "http://localhost:1337" 2 "ns.card"
      = generateTexts envC1 "http://localhost:1337" 2 "ns.card" :=
  C10_generation_deterministic envC1 (fun u c => if c = "zzz.other" then some [] else envC1 u c)
    "http://localhost:1337" 2 "ns.card" (by decide)

/-- C8: all four output paths are rooted under `{dir}/components/sections`
resp. `{dir}/graphql/fragments` (themselves rooted at the working
directory, as `path.join(process.cwd(), config.dir, ...)` does), and the
two directory subtrees are created recursively — together with all their
ancestors — whenever they do not already exist. -/
theorem C8_output_paths :
    ∀ (cwd dir name : String) (dirs0 : List String),
      strPrefixOf (sectionsDir cwd dir) (componentFilePath cwd dir name)
      ∧ strPrefixOf (sectionsDir cwd dir) (componentTypesFilePath cwd dir name)
      ∧ strPrefixOf (nodePathJoin [cwd, dir, "graphql", "fragments"])
          (fragmentFilePath cwd dir name)
      ∧ strPrefixOf (nodePathJoin [cwd, dir, "graphql", "fragments"])
          (sectionsFragmentsIndexDir cwd dir)
      ∧ sectionsDir cwd dir ∈ setupDirs dirs0 cwd dir
      ∧ sectionsFragmentsDir cwd dir ∈ setupDirs dirs0 cwd dir
      ∧ (existsDir dirs0 (sectionsDir cwd dir) = false →
          ∀ a ∈ ancestors (sectionsDir cwd dir), a ∈ setupDirs dirs0 cwd dir)
      ∧ (existsDir (if existsDir dirs0 (sectionsDir cwd dir) then dirs0
            else mkdirSyncRec dirs0 (sectionsDir cwd dir)) (sectionsFragmentsDir cwd dir)
              = false →
          ∀ a ∈ ancestors (sectionsFragmentsDir cwd dir), a ∈ setupDirs dirs0 cwd dir) := by
  intro cwd dir name dirs0
  have hA : strPrefixOf (nodePathJoin [cwd, dir, "graphql", "fragments"])
      (sectionsFragmentsDir cwd dir) := by
    show strPrefixOf _ (nodePathJoin ([cwd, dir, "graphql", "fragments"] ++ ["sections"]))
    exact nodePathJoin_append_single _ _ (by decide)
  refine ⟨?_, ?_, ?_, ?_, ?_, ?_, ?_, ?_⟩
  · exact nodePathJoin_pair _ _ (str_append_ne_empty_right name ".vue" (by decide))
  · exact nodePathJoin_pair _ _
      (str_append_ne_empty_right (lowerFirst name) ".types.ts" (by decide))
  · exact strPrefixOf_trans hA
      (nodePathJoin_pair _ _ (str_append_ne_empty_right (lowerFirst name) ".ts" (by decide)))
  · show strPrefixOf _ (nodePathJoin ([cwd, dir, "graphql", "fragments"] ++ ["index.ts"]))
    exact nodePathJoin_append_single _ _ (by decide)
  · simp only [setupDirs]
    by_cases h1 : existsDir dirs0 (sectionsDir cwd dir) = true
    · rw [if_pos h1]
      have hm : sectionsDir cwd dir ∈ dirs0 := mem_of_existsDir h1
      by_cases h2 : existsDir dirs0 (sectionsFragmentsDir cwd dir) = true
      · rw [if_pos h2]; exact hm
      · rw [if_neg h2]; exact List.mem_append_left _ hm
    · rw [if_neg h1]
      have hm : sectionsDir cwd dir ∈ mkdirSyncRec dirs0 (sectionsDir cwd dir) :=
        List.mem_append_right _ (self_mem_ancestors _)
      by_cases h2 : existsDir (mkdirSyncRec dirs0 (sectionsDir cwd dir))
          (sectionsFragmentsDir cwd dir) = true
      · rw [if_pos h2]; exact hm
      · rw [if_neg h2]; exact List.mem_append_left _ hm
  · simp only [setupDirs]
    by_cases h1 : existsDir dirs0 (sectionsDir cwd dir) = true
    · rw [if_pos h1]
      by_cases h2 : existsDir dirs0 (sectionsFragmentsDir cwd dir) = true
      · rw [if_pos h2]; exact mem_of_existsDir h2
      · rw [if_neg h2]; exact List.mem_append_right _ (self_mem_ancestors _)
    · rw [if_neg h1]
      by_cases h2 : existsDir (mkdirSyncRec dirs0 (sectionsDir cwd dir))
          (sectionsFragmentsDir cwd dir) = true
      · rw [if_pos h2]; exact mem_of_existsDir h2
      · rw [if_neg h2]; exact List.mem_append_right _ (self_mem_ancestors _)
  · intro h1 a ha
    have h1' : ¬existsDir dirs0 (sectionsDir cwd dir) = true := by simp [h1]
    simp only [setupDirs]
    rw [if_neg h1']
    have hm : a ∈ mkdirSyncRec dirs0 (sectionsDir cwd dir) := List.mem_append_right _ ha
    by_cases h2 : existsDir (mkdirSyncRec dirs0 (sectionsDir cwd dir))
        (sectionsFragmentsDir cwd dir) = true
    · rw [if_pos h2]; exact hm
    · rw [if_neg h2]; exact List.mem_append_left _ hm
  · intro h2 a ha
    have h2' : ¬existsDir (if existsDir dirs0 (sectionsDir cwd dir) then dirs0
        else mkdirSyncRec dirs0 (sectionsDir cwd dir)) (sectionsFragmentsDir cwd dir)
          = true := by simp [h2]
    simp only [setupDirs]
    rw [if_neg h2']
    exact List.mem_append_right _ ha

/-- C8 witness: concrete instance at `--dir foo` with an empty directory set. -/
theorem C8_witness :
    strPrefixOf (sectionsDir "w" "foo") (componentFilePath "w" "foo" "HeroBanner")
    ∧ sectionsDir "w" "foo" ∈ setupDirs [] "w" "foo"
    ∧ ∀ a ∈ ancestors (sectionsDir "w" "foo"), a ∈ setupDirs [] "w" "foo" := by
  have h := C8_output_paths "w" "foo" "HeroBanner" []
  exact ⟨h.1, h.2.2.2.2.1, h.2.2.2.2.2.2.1 (by decide)⟩

/-- C5: running the file-write epilogue twice with identical arguments
against an initially empty file system is idempotent — the second run
changes nothing (each of the three files is written only when absent, and
it is present after run 1), and after both runs the barrel file contains
exactly one occurrence of the export line. -/
theorem C5_idempotent_writes :
    ∀ pf pc pt pi cf cc ct ci : String,
      pf ≠ pc → pf ≠ pt → pf ≠ pi → pc ≠ pt → pc ≠ pi → pt ≠ pi → ci ≠ "" →
      writeArtifacts (writeArtifacts [] pf pc pt pi cf cc ct ci) pf pc pt pi cf cc ct ci
          = writeArtifacts [] pf pc pt pi cf cc ct ci
      ∧ readFileSync (writeArtifacts [] pf pc pt pi cf cc ct ci) pf = cf
      ∧ readFileSync (writeArtifacts [] pf pc pt pi cf cc ct ci) pc = cc
      ∧ readFileSync (writeArtifacts [] pf pc pt pi cf cc ct ci) pt = ct
      ∧ countSubS (readFileSync (writeArtifacts [] pf pc pt pi cf cc ct ci) pi) ci = 1 := by
  intro pf pc pt pi cf cc ct ci h12 h13 h14 h23 h24 h34 hci
  have e12 : (pf == pc) = false := beq_eq_false_iff_ne.mpr h12
  have e13 : (pf == pt) = false := beq_eq_false_iff_ne.mpr h13
  have e14 : (pf == pi) = false := beq_eq_false_iff_ne.mpr h14
  have e23 : (pc == pt) = false := beq_eq_false_iff_ne.mpr h23
  have e24 : (pc == pi) = false := beq_eq_false_iff_ne.mpr h24
  have e34 : (pt == pi) = false := beq_eq_false_iff_ne.mpr h34
  have h1 : writeArtifacts [] pf pc pt pi cf cc ct ci
      = [(pf, cf), (pc, cc), (pt, ct), (pi, ci)] := by
    simp [writeArtifacts, existsSync, appendFileSync, e12, e13, e14, e23, e24, e34]
  have hread : readFileSync [(pf, cf), (pc, cc), (pt, ct), (pi, ci)] pi = ci := by
    simp [readFileSync, List.find?, e14, e24, e34]
  have h2 : writeArtifacts [(pf, cf), (pc, cc), (pt, ct), (pi, ci)] pf pc pt pi cf cc ct ci
      = [(pf, cf), (pc, cc), (pt, ct), (pi, ci)] := by
    simp [writeArtifacts, existsSync, hread, containsSubS_self]
  rw [h1]
  refine ⟨h2, ?_, ?_, ?_, ?_⟩
  · simp [readFileSync, List.find?]
  · simp [readFileSync, List.find?, e12]
  · simp [readFileSync, List.find?, e13, e23]
  · rw [hread]
    exact countSubS_self ci hci

/-- C5 witness: concrete distinct paths and a nonempty barrel line. -/
theorem C5_witness :
    writeArtifacts (writeArtifacts [] "a" "b" "c" "d" "F" "C" "T" "I\n")
        "a" "b" "c" "d" "F" "C" "T" "I\n"
      = writeArtifacts [] "a" "b" "c" "d" "F" "C" "T" "I\n"
    ∧ countSubS (readFileSync (writeArtifacts [] "a" "b" "c" "d" "F" "C" "T" "I\n") "d")
        "I\n" = 1 := by
  have h := C5_idempotent_writes "a" "b" "c" "d" "F" "C" "T" "I\n"
    (by decide) (by decide) (by decide) (by decide) (by decide) (by decide) (by decide)
  exact ⟨h.1, h.2.2.2.2⟩
